import Mathlib

/-!
Shallow embedding of the context budget and compaction engine of
`src/python/claude_code_open/context.py`, together with theorems that
settle the specification claims about it.

Embedding conventions:
* Python `str` becomes `String`; character-level work is done on `String.data`.
* Python (unbounded, non-negative here) `int` counters become `Nat`; values
  that can go negative (`get_available_tokens`) become `Int`.
* Python `float` arithmetic is embedded as exact rational (`ℚ`) arithmetic;
  `int(x)` is truncation toward zero (`pyInt`), `x % 1` for `x ≥ 0` is
  `Int.fract`.  The one place where the difference between exact rationals
  and IEEE doubles is observable at realistic inputs — the head size
  `int(max_chars * 0.7)` of `compress_tool_output` — is instead modeled
  bit-exactly (`pyKeepHead` rounds the exact product to 53 significant
  bits, ties to even, before truncating).
* Python slices with negative indices keep their Python semantics, including
  the `-0` degeneracies (`xs[:-0] = []`, `xs[-0:] = xs`): see `pyDropLast`
  and `pyTakeLast`.
* The mutable `ContextManager` object becomes a state record; each method is
  a function from the state to the new state (and/or a result value).
-/

namespace ClaudeContext

set_option maxRecDepth 10000

/-- Module-level constant `CHARS_PER_TOKEN = 3.5`. -/
def CHARS_PER_TOKEN : ℚ := 7/2

/-- Module-level constant `MAX_CONTEXT_TOKENS = 180000`. -/
def MAX_CONTEXT_TOKENS : Nat := 180000

/-- Module-level constant `RESERVE_TOKENS = 32000`. -/
def RESERVE_TOKENS : Nat := 32000

/-- Module-level constant `CODE_BLOCK_MAX_LINES = 50`. -/
def CODE_BLOCK_MAX_LINES : Nat := 50

/-- Module-level constant `TOOL_OUTPUT_MAX_CHARS = 2000`. -/
def TOOL_OUTPUT_MAX_CHARS : Nat := 2000

/-- The float literal `0.7` as an exact rational, written in normalized
form (`Rat.mk'`) so that the kernel can evaluate its `num`/`den`
(`threshold07_eq` below checks it is `7/10`). -/
def threshold07 : ℚ := ⟨7, 10, by decide, by decide⟩

/-- The `ContextConfig` dataclass with its default field values. -/
structure ContextConfig where
  max_tokens : Nat := MAX_CONTEXT_TOKENS
  reserve_tokens : Nat := RESERVE_TOKENS
  summarize_threshold : ℚ := threshold07
  keep_recent_messages : Nat := 10
  enable_ai_summary : Bool := false
  code_block_max_lines : Nat := CODE_BLOCK_MAX_LINES
  tool_output_max_chars : Nat := TOOL_OUTPUT_MAX_CHARS
  enable_incremental_compression : Bool := true
  deriving DecidableEq, Repr

/-- The `TokenUsage` dataclass (`None`-able fields are `Option`). -/
structure TokenUsage where
  input_tokens : Nat
  output_tokens : Nat
  cache_read_tokens : Option Nat := none
  cache_creation_tokens : Option Nat := none
  thinking_tokens : Option Nat := none
  deriving DecidableEq, Repr

/-- A content block of a message.  `tool_result_str` is a `tool_result`
block whose `content` is a Python `str`; `tool_result_other` is a
`tool_result` block with non-string content, carried by its Python `str()`
rendering (the code only ever looks at `str(content)` for those).
`tool_use` carries its name and the `str()` rendering of its input dict. -/
inductive ContentBlock where
  | text (t : String)
  | tool_use (name : String) (input_str : String)
  | tool_result_str (content : String)
  | tool_result_other (content_str : String)
  | image
  | other
  deriving DecidableEq, Repr, Inhabited

/-- A message `content` field: either a plain string or a block list. -/
inductive MessageContent where
  | str (s : String)
  | blocks (bs : List ContentBlock)
  deriving DecidableEq, Repr, Inhabited

/-- A message dict: `role` plus `content`. -/
structure Message where
  role : String
  content : MessageContent
  deriving DecidableEq, Repr, Inhabited

/-- The `ConversationTurn` dataclass. -/
structure ConversationTurn where
  user : Message
  assistant : Message
  timestamp : Nat
  token_estimate : Nat
  original_tokens : Nat
  summarized : Bool := false
  summary : Option String := none
  compressed : Bool := false
  api_usage : Option TokenUsage := none
  deriving DecidableEq, Repr, Inhabited

/-- The `ContextStats` dataclass. -/
structure ContextStats where
  total_messages : Nat
  estimated_tokens : Nat
  summarized_messages : Nat
  compression_ratio : ℚ
  saved_tokens : Nat
  compression_count : Nat
  deriving DecidableEq, Repr

/-- Python `int(q)`: truncation toward zero.  (Specification-level; the
executable definitions below avoid `ℚ` so that the kernel can evaluate
them, and are tied back to the `ℚ` formulas by bridge theorems.) -/
def pyInt (q : ℚ) : Int := if 0 ≤ q then ⌊q⌋ else ⌈q⌉

/-- The whitespace characters stripped by `str.lstrip()` (ASCII range). -/
def pyIsSpace (c : Char) : Bool :=
  c = ' ' || c = '\t' || c = '\n' || c = '\r' || c = '\x0b' || c = '\x0c'

/-- The CJK / Japanese ranges tested by `estimate_tokens`:
`"一" <= c <= "鿿"` or `"぀" <= c <= "ヿ"`. -/
def isAsianChar (c : Char) : Bool :=
  (0x4e00 ≤ c.toNat && c.toNat ≤ 0x9fff) || (0x3040 ≤ c.toNat && c.toNat ≤ 0x30ff)

/-- Membership in the structural punctuation set `"{}[]().,;:!?<>"`. -/
def isSpecialChar (c : Char) : Bool :=
  c = '\x7b' || c = '\x7d' || c = '[' || c = ']' || c = '(' || c = ')' ||
    c = '.' || c = ',' || c = ';' || c = ':' || c = '!' || c = '?' || c = '<' || c = '>'

/-- The code-keyword needles of `estimate_tokens`. -/
def codeIndicatorTokens : List String :=
  ["function ", "class ", "const ", "let ", "var ", "import ", "export "]

/-- Python substring test `needle in hay` on character lists. -/
def listContainsSub (needle : List Char) : List Char → Bool
  | [] => needle.isEmpty
  | c :: t => needle.isPrefixOf (c :: t) || listContainsSub needle t

/-- The `has_code` heuristic of `estimate_tokens`: the text, left-stripped,
starts with a code fence, or contains one of the code keywords. -/
def looksLikeCode (cs : List Char) : Bool :=
  ("```".data.isPrefixOf (cs.dropWhile pyIsSpace)) ||
    codeIndicatorTokens.any (fun tok => listContainsSub tok.data cs)

/-- Embedding of `estimate_tokens(text)` from the source: heuristic divisor, punctuation
and newline bonuses, then `int(tokens) + (1 if tokens % 1 else 0)`.
The float value `tokens = len/divisor + 0.1·special + 0.5·newlines` with
divisor `2.0`/`3.0`/`3.5` is carried exactly as the integer `tokens * 210`
(`210/divisor` is `105`/`70`/`60`); `estimate_tokens_eq_float` below proves
this equal to the literal (exact-rational) float expression. -/
def estimate_tokens (text : String) : Nat :=
  if text = "" then 0 else
  let cs := text.data
  let has_asian := cs.any isAsianChar
  let has_code := looksLikeCode cs
  let scale : Nat := if has_asian then 105 else if has_code then 70 else 60
  let special_chars := (cs.filter isSpecialChar).length
  let newlines := (cs.filter (fun c => c = '\n')).length
  let t210 : Nat := scale * cs.length + 21 * special_chars + 105 * newlines
  t210 / 210 + (if t210 % 210 = 0 then 0 else 1)

/-- The float expression of `estimate_tokens` written out literally over
exact rationals: `tokens = len/chars_per_token + special*0.1 + newlines*0.5`,
returned as `int(tokens) + (1 if tokens % 1 else 0)`. -/
def estimate_tokens_float (text : String) : Nat :=
  if text = "" then 0 else
  let cs := text.data
  let has_asian := cs.any isAsianChar
  let has_code := looksLikeCode cs
  let chars_per_token : ℚ := if has_asian then 2 else if has_code then 3 else CHARS_PER_TOKEN
  let special_chars := (cs.filter isSpecialChar).length
  let newlines := (cs.filter (fun c => c = '\n')).length
  let tokens : ℚ := (cs.length : ℚ) / chars_per_token +
    (special_chars : ℚ) * (1/10) + (newlines : ℚ) * (1/2)
  (pyInt tokens + (if Int.fract tokens = 0 then 0 else 1)).toNat

/-- Embedding of `estimate_message_tokens(message)`: 10-token overhead plus content. -/
def estimate_message_tokens (m : Message) : Nat :=
  match m.content with
  | .str s => estimate_tokens s + 10
  | .blocks bs =>
    10 + (bs.map (fun b =>
      match b with
      | .text t => estimate_tokens t
      | .tool_use name input_str => estimate_tokens name + estimate_tokens input_str
      | .tool_result_str c => estimate_tokens c
      | .tool_result_other cstr => estimate_tokens cstr
      | .image => 1000
      | .other => 0)).sum

/-- Embedding of `estimate_total_tokens(messages)`. -/
def estimate_total_tokens (ms : List Message) : Nat :=
  (ms.map estimate_message_tokens).sum

/-- Python slice `cs[-k:]` on characters; `k = 0` yields the whole list
(`-0 == 0`), as does `k ≥ length`. -/
def pyTakeLast (cs : List Char) (k : Nat) : List Char :=
  if k = 0 then cs else cs.drop (cs.length - k)

/-- Number of halvings that bring `x` below `2^53` (the IEEE-double
significand bound); written with explicit fuel so the kernel can evaluate
it (`fuel = x` always suffices, since at most `log₂ x` steps run). -/
def ieeeShiftFuel : Nat → Nat → Nat
  | 0, _ => 0
  | fuel + 1, x => if x < 2 ^ 53 then 0 else ieeeShiftFuel fuel (x / 2) + 1

def ieeeShift (x : Nat) : Nat := ieeeShiftFuel x x

/-- Round the integer `x` (a numerator over `2^52`) to 53 significant bits,
round-to-nearest with ties to even: the numerator of the IEEE double
nearest to `x / 2^52`. -/
def pyRoundMant (x : Nat) : Nat :=
  (x / 2 ^ ieeeShift x +
    (if 2 ^ ieeeShift x < 2 * (x % 2 ^ ieeeShift x) ∨
        (2 * (x % 2 ^ ieeeShift x) = 2 ^ ieeeShift x ∧ (x / 2 ^ ieeeShift x) % 2 = 1)
      then 1 else 0)) * 2 ^ ieeeShift x

/-- Bit-exact model of Python's `int(max_chars * 0.7)`:
`0.7` as an IEEE double is `3152519739159347 / 2^52`, so the float product
is the exact integer product rounded to 53 significant bits (ties to
even), and `int` truncates it.  Exact for `max_chars < 2^53` (checked
exhaustively against CPython up to 3·10⁶ and on random 53-bit samples);
beyond `2^53` Python's int→float conversion of `max_chars` itself rounds,
but such character limits are not realizable. -/
def pyKeepHead (max_chars : Nat) : Nat :=
  pyRoundMant (max_chars * 3152519739159347) / 2 ^ 52

/-- Embedding of `compress_tool_output(content, max_chars)` from the
source; `keep_head` embeds `int(max_chars * 0.7)` bit-exactly via
`pyKeepHead`. -/
def compress_tool_output (content : String) (max_chars : Nat) : String :=
  if content.length ≤ max_chars then content else
  let keep_head := pyKeepHead max_chars
  let keep_tail := max_chars - keep_head
  let head := String.mk (content.data.take keep_head)
  let tail := String.mk (pyTakeLast content.data keep_tail)
  let omitted := content.length - max_chars
  head ++ "\n... [" ++ toString omitted ++ " chars omitted] ...\n" ++ tail

/-- Embedding of `compress_message(message, config)`: only `tool_result` blocks with
string content are rewritten; everything else passes through. -/
def compress_message (m : Message) (config : ContextConfig) : Message :=
  match m.content with
  | .str _ => m
  | .blocks bs =>
    { m with content := .blocks (bs.map (fun b =>
        match b with
        | .tool_result_str c =>
            .tool_result_str (compress_tool_output c config.tool_output_max_chars)
        | blk => blk)) }

/-- Python `sep.join(parts)`. -/
def pyJoin (sep : String) : List String → String
  | [] => ""
  | [s] => s
  | s :: rest => s ++ sep ++ pyJoin sep rest

/-- Embedding of `_message_to_text(message)`: plain string content verbatim, else the
text blocks and stringified tool results joined by a space. -/
def message_to_text (m : Message) : String :=
  match m.content with
  | .str s => s
  | .blocks bs =>
    pyJoin " " (bs.filterMap (fun b =>
      match b with
      | .text t => some t
      | .tool_result_str c => some c
      | .tool_result_other cstr => some cstr
      | _ => none))

/-- Embedding of `create_summary(turns)`: `"User: …"` / `"Assistant: …"` line pairs
joined by newlines. -/
def create_summary (turns : List ConversationTurn) : String :=
  pyJoin "\n" (turns.foldr
    (fun turn acc =>
      ("User: " ++ message_to_text turn.user) ::
        ("Assistant: " ++ message_to_text turn.assistant) :: acc) [])

/-- The mutable `ContextManager` object as a state record (the unused
`api_client` field is omitted; wall-clock timestamps are passed in by the
caller of `add_turn`). -/
structure ContextManager where
  config : ContextConfig
  turns : List ConversationTurn
  system_prompt : String
  compression_count : Nat
  saved_tokens : Nat
  deriving DecidableEq, Repr

/-- Embedding of `ContextManager.__init__(config)`. -/
def ContextManager.init (config : ContextConfig) : ContextManager :=
  { config := config, turns := [], system_prompt := "",
    compression_count := 0, saved_tokens := 0 }

/-- Embedding of `set_system_prompt(prompt)`. -/
def ContextManager.set_system_prompt (st : ContextManager) (prompt : String) :
    ContextManager :=
  { st with system_prompt := prompt }

/-- Python truthiness of an `Optional[str]`: `None` and `""` are falsy. -/
def pyTruthyOptStr : Option String → Bool
  | none => false
  | some s => s ≠ ""

/-- The per-turn contribution inside `get_used_tokens`. -/
def turnUsedTokens (turn : ConversationTurn) : Nat :=
  if turn.summarized && pyTruthyOptStr turn.summary then
    estimate_tokens (turn.summary.getD "")
  else
    match turn.api_usage with
    | some u =>
        u.input_tokens + u.cache_creation_tokens.getD 0 + u.cache_read_tokens.getD 0 +
          u.output_tokens + u.thinking_tokens.getD 0
    | none => turn.token_estimate

/-- Embedding of `get_used_tokens()`. -/
def ContextManager.get_used_tokens (st : ContextManager) : Nat :=
  estimate_tokens st.system_prompt + (st.turns.map turnUsedTokens).sum

/-- Embedding of `get_available_tokens()` (may be negative, hence `Int`). -/
def ContextManager.get_available_tokens (st : ContextManager) : Int :=
  (st.config.max_tokens : Int) - (st.config.reserve_tokens : Int) -
    (st.get_used_tokens : Int)

/-- The fixed assistant acknowledgment emitted after a summary. -/
def summaryAckMessage : Message :=
  { role := "assistant", content := .str "I understand. I'll keep this context in mind." }

/-- Embedding of `get_messages()`. -/
def ContextManager.get_messages (st : ContextManager) : List Message :=
  let summarized_turns := st.turns.filter (fun t => t.summarized)
  let head_msgs : List Message :=
    if summarized_turns.isEmpty then [] else
      [{ role := "user", content := .str (create_summary summarized_turns) },
        summaryAckMessage]
  head_msgs ++
    (st.turns.filter (fun t => !t.summarized)).foldr
      (fun t acc => t.user :: t.assistant :: acc) []

/-- Python slice `ts[:-k]` on turns; `k = 0` yields `[]` (because
`-0 == 0`, so the slice is `ts[:0]`). -/
def pyDropLast (ts : List ConversationTurn) (k : Nat) : List ConversationTurn :=
  if k = 0 then [] else ts.take (ts.length - k)

/-- The in-place mutation performed on each eligible turn by `_compress`:
turns not yet summarized are marked and receive this pass's summary. -/
def markTurn (summary : String) (turn : ConversationTurn) : ConversationTurn :=
  if turn.summarized then turn
  else { turn with summarized := true, summary := some summary }

/-- Embedding of `_compress(force)` (the `force` parameter is never read in the body,
so it is dropped here). -/
def ContextManager.compressRun (st : ContextManager) : ContextManager :=
  let recent_count := st.config.keep_recent_messages
  if st.turns.length ≤ recent_count then st else
  let to_summarize := pyDropLast st.turns recent_count
  if to_summarize.isEmpty then st else
  let before_tokens := (to_summarize.map (fun t => t.token_estimate)).sum
  let summary := create_summary to_summarize
  let after_tokens := estimate_tokens summary
  { st with
    turns := to_summarize.map (markTurn summary) ++ st.turns.drop to_summarize.length,
    saved_tokens := st.saved_tokens + (before_tokens - after_tokens),
    compression_count := st.compression_count + 1 }

/-- The compaction threshold `int(max_tokens * summarize_threshold)`;
computed by truncated integer division on the rational's representation so
the kernel can evaluate it (`compactThreshold_eq` ties it to `pyInt`).
Known exact-rational-vs-IEEE divergence, observable only at the default
config: Python's `int(180000 * 0.7)` is `125999` while this gives
`126000` (`int(1000 * 0.7)` of Scenario A is `700` in both).  No theorem
in this file depends on which of the two values is used: every concrete
default-config state here stays far below both. -/
def compactThreshold (cfg : ContextConfig) : Int :=
  ((cfg.max_tokens : Int) * cfg.summarize_threshold.num).tdiv (cfg.summarize_threshold.den : Int)

/-- Embedding of `_maybe_compress()`: threshold is `int(max_tokens * summarize_threshold)`. -/
def ContextManager.maybe_compress (st : ContextManager) : ContextManager :=
  let threshold := compactThreshold st.config
  if (st.get_used_tokens : Int) < threshold then st else st.compressRun

/-- Embedding of `compact()` = `_compress(force=True)`. -/
def ContextManager.compact (st : ContextManager) : ContextManager :=
  st.compressRun

/-- Embedding of `add_turn(user, assistant, api_usage)`; `now` is the wall-clock
timestamp `_timestamp_ms()` would have produced. -/
def ContextManager.add_turn (st : ContextManager) (user assistant : Message)
    (api_usage : Option TokenUsage) (now : Nat) : ContextManager :=
  let original_tokens := estimate_message_tokens user + estimate_message_tokens assistant
  let processed_user :=
    if st.config.enable_incremental_compression then compress_message user st.config
    else user
  let processed_assistant :=
    if st.config.enable_incremental_compression then compress_message assistant st.config
    else assistant
  let compressed_tokens :=
    estimate_message_tokens processed_user + estimate_message_tokens processed_assistant
  let compressed :=
    st.config.enable_incremental_compression && decide (compressed_tokens < original_tokens)
  let st1 : ContextManager :=
    { st with
      saved_tokens := st.saved_tokens +
        (if compressed then original_tokens - compressed_tokens else 0),
      turns := st.turns ++ [{
        user := processed_user, assistant := processed_assistant, timestamp := now,
        token_estimate := compressed_tokens, original_tokens := original_tokens,
        summarized := false, summary := none, compressed := compressed,
        api_usage := api_usage }] }
  st1.maybe_compress

/-- Embedding of `get_stats()`. -/
def ContextManager.get_stats (st : ContextManager) : ContextStats :=
  let summarized := (st.turns.filter (fun t => t.summarized)).length
  let original_tokens := (st.turns.map (fun t => t.original_tokens)).sum
  let current_tokens := st.get_used_tokens
  { total_messages := st.turns.length * 2,
    estimated_tokens := current_tokens,
    summarized_messages := summarized * 2,
    compression_ratio :=
      if original_tokens = 0 then 1 else (current_tokens : ℚ) / (original_tokens : ℚ),
    saved_tokens := st.saved_tokens,
    compression_count := st.compression_count }

/-- Embedding of `reset()`. -/
def ContextManager.reset (st : ContextManager) : ContextManager :=
  { st with turns := [], compression_count := 0, saved_tokens := 0 }

/-- The states a `ContextManager` can actually be driven into through its
public interface (read-only methods and the unused `set_api_client` do not
change the state). -/
inductive Reachable : ContextManager → Prop
  | init (config : ContextConfig) : Reachable (ContextManager.init config)
  | set_prompt {st : ContextManager} (prompt : String) :
      Reachable st → Reachable (st.set_system_prompt prompt)
  | add {st : ContextManager} (user assistant : Message)
      (usage : Option TokenUsage) (now : Nat) :
      Reachable st → Reachable (st.add_turn user assistant usage now)
  | compact_step {st : ContextManager} : Reachable st → Reachable st.compact
  | reset_step {st : ContextManager} : Reachable st → Reachable st.reset

/-! ### Bridge lemmas: the executable integer arithmetic matches the
exact-rational reading of the source's float expressions. -/

theorem threshold07_eq : threshold07 = 7/10 := by
  rw [threshold07, Rat.mk'_eq_divInt, Rat.divInt_eq_div]
  norm_num

theorem pyInt_intCast_div_natCast (p : ℤ) (d : ℕ) (hd : 0 < d) :
    pyInt ((p : ℚ) / (d : ℚ)) = p.tdiv (d : ℤ) := by
  by_cases hp : 0 ≤ p
  · have hq : (0 : ℚ) ≤ (p : ℚ) / (d : ℚ) := by positivity
    rw [pyInt, if_pos hq, Rat.floor_intCast_div_natCast,
      Int.tdiv_eq_ediv hp (by exact_mod_cast Nat.zero_le d)]
  · push_neg at hp
    have hq : (p : ℚ) / (d : ℚ) < 0 := by
      apply div_neg_of_neg_of_pos
      · exact_mod_cast hp
      · exact_mod_cast hd
    rw [pyInt, if_neg (not_le.mpr hq)]
    have h1 : ⌈(p : ℚ) / (d : ℚ)⌉ = -⌊((-p : ℤ) : ℚ) / (d : ℚ)⌋ := by
      have hx : ((-p : ℤ) : ℚ) / (d : ℚ) = -((p : ℚ) / (d : ℚ)) := by
        push_cast
        ring
      rw [hx, Int.floor_neg, neg_neg]
    have h2 : p.tdiv (d : ℤ) = -((-p).tdiv (d : ℤ)) := by
      rw [Int.neg_tdiv, neg_neg]
    rw [h1, Rat.floor_intCast_div_natCast, h2,
      Int.tdiv_eq_ediv (by omega) (by exact_mod_cast Nat.zero_le d)]

theorem natCast_tdiv_natCast (T b : ℕ) : (T : ℤ).tdiv (b : ℤ) = ((T / b : ℕ) : ℤ) := by
  have h := Int.tdiv_eq_ediv (a := (T : ℤ)) (b := (b : ℤ))
    (by exact_mod_cast Nat.zero_le T) (by exact_mod_cast Nat.zero_le b)
  omega

theorem floor_natCast_div_natCast' (T b : ℕ) :
    ⌊(T : ℚ) / (b : ℚ)⌋ = ((T / b : ℕ) : ℤ) := by
  rw [Rat.floor_natCast_div_natCast T b, ← natCast_tdiv_natCast T b,
    Int.tdiv_eq_ediv (by exact_mod_cast Nat.zero_le T) (by exact_mod_cast Nat.zero_le b)]

theorem fract_natCast_div_eq_zero_iff (T b : ℕ) (hb : 0 < b) :
    Int.fract ((T : ℚ) / (b : ℚ)) = 0 ↔ T % b = 0 := by
  have hbq : (b : ℚ) ≠ 0 := Nat.cast_ne_zero.mpr (by omega)
  have hiff : Int.fract ((T : ℚ) / (b : ℚ)) = 0 ↔
      (T : ℚ) / (b : ℚ) = (⌊(T : ℚ) / (b : ℚ)⌋ : ℚ) := by
    rw [← Int.self_sub_floor, sub_eq_zero]
  have hflq : ((⌊(T : ℚ) / (b : ℚ)⌋ : ℤ) : ℚ) = ((T / b : ℕ) : ℚ) := by
    rw [floor_natCast_div_natCast' T b, Int.cast_natCast]
  rw [hiff, hflq]
  constructor
  · intro heq
    have hTb : T = T / b * b := by exact_mod_cast (div_eq_iff hbq).mp heq
    obtain ⟨c, rfl⟩ : b ∣ T := ⟨T / b, by rw [mul_comm] at hTb; exact hTb⟩
    exact Nat.mul_mod_right b c
  · intro h
    have hmul : T / b * b = T := Nat.div_mul_cancel (Nat.dvd_of_mod_eq_zero h)
    rw [div_eq_iff hbq]
    exact_mod_cast hmul.symm

theorem pyRound_natCast_div (T b : ℕ) (hb : 0 < b) :
    (pyInt ((T : ℚ) / (b : ℚ)) +
        (if Int.fract ((T : ℚ) / (b : ℚ)) = 0 then 0 else 1)).toNat =
      T / b + (if T % b = 0 then 0 else 1) := by
  have h1 : pyInt ((T : ℚ) / (b : ℚ)) = ((T / b : ℕ) : ℤ) := by
    have hc : ((T : ℚ)) = (((T : ℤ) : ℚ)) := by push_cast; ring
    rw [hc, pyInt_intCast_div_natCast (T : ℤ) b hb, natCast_tdiv_natCast]
  have h2 : (Int.fract ((T : ℚ) / (b : ℚ)) = 0) = (T % b = 0) :=
    propext (fract_natCast_div_eq_zero_iff T b hb)
  rw [h1]
  simp only [h2]
  generalize T / b = k
  split_ifs with h
  · rw [add_zero, add_zero, Int.toNat_natCast]
  · rw [show ((k : ℤ) + 1) = ((k + 1 : ℕ) : ℤ) by push_cast; ring, Int.toNat_natCast]

theorem round210_eq_float (n sp nl scale : ℕ) (cpt : ℚ)
    (hsc : (scale : ℚ) * cpt = 210) (hs : 0 < scale) :
    (scale * n + 21 * sp + 105 * nl) / 210 +
      (if (scale * n + 21 * sp + 105 * nl) % 210 = 0 then 0 else 1) =
    (pyInt ((n : ℚ) / cpt + (sp : ℚ) * (1/10) + (nl : ℚ) * (1/2)) +
      (if Int.fract ((n : ℚ) / cpt + (sp : ℚ) * (1/10) + (nl : ℚ) * (1/2)) = 0
        then 0 else 1)).toNat := by
  have hsne : (scale : ℚ) ≠ 0 := by positivity
  have hcptne : cpt ≠ 0 := by
    intro h0
    rw [h0, mul_zero] at hsc
    norm_num at hsc
  have hcpt : cpt = 210 / (scale : ℚ) := by
    field_simp
    linarith [hsc]
  have hq : (n : ℚ) / cpt + (sp : ℚ) * (1/10) + (nl : ℚ) * (1/2) =
      ((scale * n + 21 * sp + 105 * nl : ℕ) : ℚ) / ((210 : ℕ) : ℚ) := by
    rw [hcpt]
    push_cast
    field_simp
    ring
  rw [hq, pyRound_natCast_div _ 210 (by norm_num)]

theorem estimate_tokens_eq_float (text : String) :
    estimate_tokens text = estimate_tokens_float text := by
  by_cases h : text = ""
  · simp [estimate_tokens, estimate_tokens_float, h]
  · simp only [estimate_tokens, estimate_tokens_float, if_neg h]
    by_cases ha : text.data.any isAsianChar
    · simp only [ha, if_true]
      exact round210_eq_float _ _ _ 105 2 (by norm_num) (by norm_num)
    · by_cases hc : looksLikeCode text.data
      · simp only [ha, hc, if_false, if_true]
        exact round210_eq_float _ _ _ 70 3 (by norm_num) (by norm_num)
      · simp only [ha, hc, if_false]
        exact round210_eq_float _ _ _ 60 CHARS_PER_TOKEN
          (by norm_num [CHARS_PER_TOKEN]) (by norm_num)

theorem compactThreshold_eq (cfg : ContextConfig) :
    compactThreshold cfg =
      pyInt ((cfg.max_tokens : ℚ) * cfg.summarize_threshold) := by
  have hq : (cfg.max_tokens : ℚ) * cfg.summarize_threshold =
      (((cfg.max_tokens : ℤ) * cfg.summarize_threshold.num : ℤ) : ℚ) /
        ((cfg.summarize_threshold.den : ℕ) : ℚ) := by
    conv_lhs => rw [← Rat.num_div_den cfg.summarize_threshold]
    push_cast
    ring
  rw [compactThreshold, hq, pyInt_intCast_div_natCast _ _ cfg.summarize_threshold.pos]

/-! ### Rounding: `int(x) + (1 if x % 1 else 0)` is the ceiling for `x ≥ 0`. -/

theorem fract_eq_zero_iff_eq_floor (x : ℚ) :
    Int.fract x = 0 ↔ x = (⌊x⌋ : ℚ) := by
  rw [← Int.self_sub_floor, sub_eq_zero]

theorem ceil_eq_floor_add_ind (x : ℚ) :
    ⌈x⌉ = ⌊x⌋ + (if Int.fract x = 0 then 0 else 1) := by
  by_cases h : Int.fract x = 0
  · rw [if_pos h, add_zero]
    obtain ⟨z, hz⟩ : ∃ z : ℤ, x = (z : ℚ) := ⟨⌊x⌋, (fract_eq_zero_iff_eq_floor x).mp h⟩
    subst hz
    rw [Int.ceil_intCast, Int.floor_intCast]
  · rw [if_neg h]
    have hlt : (⌊x⌋ : ℚ) < x := by
      rcases (Int.floor_le x).lt_or_eq with h1 | h1
      · exact h1
      · exact absurd ((fract_eq_zero_iff_eq_floor x).mpr h1.symm) h
    apply le_antisymm
    · rw [Int.ceil_le]
      push_cast
      linarith [Int.lt_floor_add_one x]
    · have h2 : (⌊x⌋ : ℚ) < (⌈x⌉ : ℚ) := lt_of_lt_of_le hlt (Int.le_ceil x)
      have h3 : ⌊x⌋ < ⌈x⌉ := by exact_mod_cast h2
      omega

theorem pyRound_eq_ceil_toNat (x : ℚ) (hx : 0 ≤ x) :
    (pyInt x + (if Int.fract x = 0 then 0 else 1)).toNat = (⌈x⌉).toNat := by
  rw [pyInt, if_pos hx, ← ceil_eq_floor_add_ind]

/-! ### Claim C7 -/

/-- The token-estimate algorithm as the specification states it: for
non-empty input, the ceiling of `len(text)/divisor + 0.1` per structural
punctuation character `+ 0.5` per newline, where the divisor is `2.0` for
texts containing a CJK/Japanese-range character, `3.0` for code-looking
texts (fenced-code start after leading whitespace, or a code keyword),
and `3.5` otherwise; `0` for empty input. -/
def estimate_tokens_spec (text : String) : Nat :=
  if text = "" then 0 else
  let cs := text.data
  let divisor : ℚ := if cs.any isAsianChar then 2 else if looksLikeCode cs then 3 else 7/2
  (⌈(cs.length : ℚ) / divisor +
      ((cs.filter isSpecialChar).length : ℚ) * (1/10) +
      ((cs.filter (fun c => c = '\n')).length : ℚ) * (1/2)⌉).toNat

/-- C7: `estimate_tokens` returns 0 for empty input and otherwise the
ceiling of `len/divisor + 0.1·special + 0.5·newlines` with the claimed
divisor selection; being a `Nat`-valued Lean function, it is deterministic
and non-negative by construction. -/
theorem C7_estimate_tokens_formula (text : String) :
    estimate_tokens text = estimate_tokens_spec text := by
  rw [estimate_tokens_eq_float, estimate_tokens_float, estimate_tokens_spec]
  by_cases h : text = ""
  · simp [h]
  · simp only [if_neg h, CHARS_PER_TOKEN]
    apply pyRound_eq_ceil_toNat
    have hdiv : (0 : ℚ) < (if text.data.any isAsianChar then 2
        else if looksLikeCode text.data then 3 else 7/2) := by
      split_ifs <;> norm_num
    positivity

/-! ### Claim C8 -/

theorem ieeeShiftFuel_spec (fuel : Nat) : ∀ x : Nat, x ≤ fuel →
    (x < 2 ^ 53 → ieeeShiftFuel fuel x = 0) ∧
    (2 ^ 53 ≤ x → 2 ^ 52 * 2 ^ ieeeShiftFuel fuel x ≤ x) := by
  induction fuel with
  | zero =>
    intro x hx
    have h53 : (2 : Nat) ^ 53 = 9007199254740992 := by norm_num
    exact ⟨fun _ => rfl, fun hge => by omega⟩
  | succ fuel ih =>
    intro x hx
    have h53 : (2 : Nat) ^ 53 = 9007199254740992 := by norm_num
    constructor
    · intro hlt
      simp only [ieeeShiftFuel, if_pos hlt]
    · intro hge
      have hne : ¬x < 2 ^ 53 := by omega
      have hstep : ieeeShiftFuel (fuel + 1) x = ieeeShiftFuel fuel (x / 2) + 1 := by
        simp only [ieeeShiftFuel, if_neg hne]
      rw [hstep]
      have hx2 : x / 2 ≤ fuel := by omega
      by_cases hh : x / 2 < 2 ^ 53
      · rw [(ih (x / 2) hx2).1 hh]
        have hval : (2 : Nat) ^ 52 * 2 ^ (0 + 1) = 9007199254740992 := by norm_num
        omega
      · have h2 := (ih (x / 2) hx2).2 (by omega)
        have hps : (2 : Nat) ^ (ieeeShiftFuel fuel (x / 2) + 1) =
            2 ^ ieeeShiftFuel fuel (x / 2) * 2 := pow_succ 2 _
        rw [hps, show (2 : Nat) ^ 52 * (2 ^ ieeeShiftFuel fuel (x / 2) * 2) =
          2 ^ 52 * 2 ^ ieeeShiftFuel fuel (x / 2) * 2 by ring]
        omega

theorem ieeeShift_spec (x : Nat) :
    (x < 2 ^ 53 → ieeeShift x = 0) ∧
    (2 ^ 53 ≤ x → 2 ^ 52 * 2 ^ ieeeShift x ≤ x) :=
  ieeeShiftFuel_spec x x (Nat.le_refl x)

theorem pyRoundMant_le (x : Nat) : pyRoundMant x ≤ x + 2 ^ ieeeShift x / 2 := by
  rw [pyRoundMant]
  have hdm := Nat.div_add_mod x (2 ^ ieeeShift x)
  by_cases hc : 2 ^ ieeeShift x < 2 * (x % 2 ^ ieeeShift x) ∨
      (2 * (x % 2 ^ ieeeShift x) = 2 ^ ieeeShift x ∧ (x / 2 ^ ieeeShift x) % 2 = 1)
  · rw [if_pos hc]
    have hge : 2 ^ ieeeShift x ≤ 2 * (x % 2 ^ ieeeShift x) := by
      rcases hc with h | ⟨h, _⟩ <;> omega
    have hdist : (x / 2 ^ ieeeShift x + 1) * 2 ^ ieeeShift x =
        2 ^ ieeeShift x * (x / 2 ^ ieeeShift x) + 2 ^ ieeeShift x := by ring
    rw [hdist]
    omega
  · rw [if_neg hc]
    have hdist : (x / 2 ^ ieeeShift x + 0) * 2 ^ ieeeShift x =
        2 ^ ieeeShift x * (x / 2 ^ ieeeShift x) := by ring
    rw [hdist]
    omega

theorem pyRoundMant_lt_mul (mc : Nat) (h : 1 ≤ mc) :
    pyRoundMant (mc * 3152519739159347) < mc * 2 ^ 52 := by
  have hle := pyRoundMant_le (mc * 3152519739159347)
  have hmul : mc * 3152519739159347 < mc * 2 ^ 52 :=
    mul_lt_mul_of_pos_left (by norm_num) (by omega)
  have hslack : mc * 3152519739159347 + mc ≤ mc * 2 ^ 52 := by
    have : mc * (3152519739159347 + 1) ≤ mc * 2 ^ 52 :=
      Nat.mul_le_mul_left mc (by norm_num)
    omega
  by_cases hlt : mc * 3152519739159347 < 2 ^ 53
  · rw [(ieeeShift_spec _).1 hlt] at hle
    norm_num at hle
    omega
  · have hbound := (ieeeShift_spec (mc * 3152519739159347)).2 (by omega)
    have hslt : 2 ^ ieeeShift (mc * 3152519739159347) < mc := by
      have h1 : 2 ^ ieeeShift (mc * 3152519739159347) * 2 ^ 52 < mc * 2 ^ 52 := by
        calc 2 ^ ieeeShift (mc * 3152519739159347) * 2 ^ 52 =
            2 ^ 52 * 2 ^ ieeeShift (mc * 3152519739159347) := by ring
          _ ≤ mc * 3152519739159347 := hbound
          _ < mc * 2 ^ 52 := hmul
      exact Nat.lt_of_mul_lt_mul_right h1
    omega

theorem keep_head_lt (max_chars : Nat) (h : 1 ≤ max_chars) :
    pyKeepHead max_chars < max_chars := by
  rw [pyKeepHead]
  rw [Nat.div_lt_iff_lt_mul (by positivity)]
  exact pyRoundMant_lt_mul max_chars h

/-- C8 counterexample: at `max_chars = 0` the Python tail slice
`content[-0:]` is the whole string, so the output is the marker followed by
the entire input rather than the marker alone (`head` and the claimed tail
are both empty at `max_chars = 0`), and the output keeps all
`len(content)` characters of the original instead of `max_chars = 0`. -/
theorem C8_counterexample :
    compress_tool_output "ab" 0 = "\n... [2 chars omitted] ...\nab" ∧
    compress_tool_output "ab" 0 ≠ "\n... [2 chars omitted] ...\n" := by
  constructor
  · rfl
  · decide

/-- C8 (amended to `1 ≤ max_chars`, which the counterexample forces, and
stated on the float-exact range `max_chars < 2^53`, within which
`pyKeepHead` is bit-for-bit Python's `int(max_chars * 0.7)`): inputs
within the limit pass through unchanged; longer inputs become the first
`int(max_chars*0.7)` characters (IEEE float rounding, e.g. 62 of 90, not
the exact-rational 63), the marker reporting exactly `len − max_chars`
omitted characters, and the last `max_chars − head` characters, so
exactly `max_chars` original characters are kept. -/
theorem C8_amended (content : String) (max_chars : Nat) (hmc : 1 ≤ max_chars)
    (_hdom : max_chars < 2 ^ 53) :
    (content.length ≤ max_chars → compress_tool_output content max_chars = content) ∧
    (max_chars < content.length →
      compress_tool_output content max_chars =
        String.mk (content.data.take (pyKeepHead max_chars)) ++
          "\n... [" ++ toString (content.length - max_chars) ++ " chars omitted] ...\n" ++
          String.mk (content.data.drop
            (content.length - (max_chars - pyKeepHead max_chars))) ∧
      pyKeepHead max_chars + (max_chars - pyKeepHead max_chars) = max_chars) := by
  constructor
  · intro hle
    rw [compress_tool_output, if_pos hle]
  · intro hgt
    have hkh := keep_head_lt max_chars hmc
    refine ⟨?_, by omega⟩
    simp only [compress_tool_output, pyTakeLast,
      if_neg (show ¬content.length ≤ max_chars by omega),
      if_neg (show ¬(max_chars - pyKeepHead max_chars = 0) by omega)]
    rfl

/-- Witness for `C8_amended` at `content = "hello"`, `max_chars = 4`
(where `int(4 * 0.7) = 2`). -/
theorem C8_amended_witness :
    compress_tool_output "hello" 4 =
      String.mk ("hello".data.take (pyKeepHead 4)) ++
        "\n... [" ++ toString ("hello".length - 4) ++ " chars omitted] ...\n" ++
        String.mk ("hello".data.drop ("hello".length - (4 - pyKeepHead 4))) :=
  ((C8_amended "hello" 4 (by decide) (by norm_num)).2 (by decide)).1

/-! ### Structure of a compaction pass -/

/-- Abbreviation: the eligible batch `turns[:-keep]` of an active pass. -/
def eligibleBatch (st : ContextManager) : List ConversationTurn :=
  st.turns.take (st.turns.length - st.config.keep_recent_messages)

theorem compressRun_of_le (st : ContextManager)
    (h : st.turns.length ≤ st.config.keep_recent_messages) : st.compressRun = st := by
  simp only [ContextManager.compressRun, if_pos h]

theorem compressRun_of_keep_zero (st : ContextManager)
    (h : st.config.keep_recent_messages = 0) : st.compressRun = st := by
  simp [ContextManager.compressRun, pyDropLast, h]

theorem eligibleBatch_length (st : ContextManager)
    (hlen : st.config.keep_recent_messages < st.turns.length) :
    (eligibleBatch st).length = st.turns.length - st.config.keep_recent_messages := by
  rw [eligibleBatch, List.length_take]
  omega

theorem compressRun_active (st : ContextManager)
    (hk : 1 ≤ st.config.keep_recent_messages)
    (hlen : st.config.keep_recent_messages < st.turns.length) :
    st.compressRun =
      { st with
        turns := (eligibleBatch st).map (markTurn (create_summary (eligibleBatch st))) ++
          st.turns.drop (st.turns.length - st.config.keep_recent_messages),
        saved_tokens := st.saved_tokens +
          (((eligibleBatch st).map (fun t => t.token_estimate)).sum -
            estimate_tokens (create_summary (eligibleBatch st))),
        compression_count := st.compression_count + 1 } := by
  have hm := eligibleBatch_length st hlen
  have hne : (eligibleBatch st).isEmpty = false := by
    cases hE : (eligibleBatch st).isEmpty
    · rfl
    · have hnil : eligibleBatch st = [] := List.isEmpty_iff.mp hE
      rw [hnil] at hm
      simp at hm
      omega
  simp only [ContextManager.compressRun, pyDropLast,
    if_neg (show ¬st.turns.length ≤ st.config.keep_recent_messages by omega),
    if_neg (show ¬st.config.keep_recent_messages = 0 by omega)]
  rw [show st.turns.take (st.turns.length - st.config.keep_recent_messages) =
    eligibleBatch st from rfl]
  rw [if_neg (by rw [hne]; exact Bool.false_ne_true)]
  rw [hm]

theorem maybe_compress_of_lt (st : ContextManager)
    (h : (st.get_used_tokens : Int) < compactThreshold st.config) :
    st.maybe_compress = st := by
  simp only [ContextManager.maybe_compress, if_pos h]

theorem maybe_compress_of_ge (st : ContextManager)
    (h : ¬(st.get_used_tokens : Int) < compactThreshold st.config) :
    st.maybe_compress = st.compressRun := by
  simp only [ContextManager.maybe_compress, if_neg h]

theorem maybe_compress_cases (st : ContextManager) :
    st.maybe_compress = st ∨ st.maybe_compress = st.compressRun := by
  by_cases h : (st.get_used_tokens : Int) < compactThreshold st.config
  · exact Or.inl (maybe_compress_of_lt st h)
  · exact Or.inr (maybe_compress_of_ge st h)

theorem compressRun_turns_length (st : ContextManager) :
    st.compressRun.turns.length = st.turns.length := by
  by_cases h0 : st.config.keep_recent_messages = 0
  · rw [compressRun_of_keep_zero st h0]
  · by_cases hle : st.turns.length ≤ st.config.keep_recent_messages
    · rw [compressRun_of_le st hle]
    · rw [compressRun_active st (by omega) (by omega)]
      simp only [List.length_append, List.length_map,
        eligibleBatch_length st (by omega), List.length_drop]
      omega

/-! ### Claims C9 and C4: compaction-pass bookkeeping and marking -/

/-- A one-turn manager configured with `keep_recent_messages = 0`, built
through the public interface. -/
def cfgKeep0 : ContextConfig := { keep_recent_messages := 0 }

def stKeep0 : ContextManager :=
  (ContextManager.init cfgKeep0).add_turn
    { role := "user", content := .str "hi" }
    { role := "assistant", content := .str "ok" } none 0

/-- A two-turn manager with `keep_recent_messages = 1`, built through the
public interface (the threshold is not reached, so no pass has run yet). -/
def cfgKeep1 : ContextConfig := { keep_recent_messages := 1 }

def stKeep1 : ContextManager :=
  ((ContextManager.init cfgKeep1).add_turn
    { role := "user", content := .str "one" }
    { role := "assistant", content := .str "two" } none 0).add_turn
    { role := "user", content := .str "three" }
    { role := "assistant", content := .str "four" } none 1

/-- C9 counterexample: with `keep_recent_messages = 0` and one stored turn
(turn count `1 > 0 = keep`), `compact()` changes nothing at all — in
particular the compaction-pass counter is not incremented, because
`turns[:-0]` is the empty slice. -/
theorem C9_counterexample :
    stKeep0.config.keep_recent_messages < stKeep0.turns.length ∧
    stKeep0.compact.compression_count = stKeep0.compression_count ∧
    stKeep0.compact = stKeep0 := by
  refine ⟨by decide, ?_, ?_⟩ <;> rw [show stKeep0.compact = stKeep0 from
    compressRun_of_keep_zero stKeep0 rfl]

/-- C9 (amended to `keep_recent_messages ≥ 1`, which the counterexample
forces; for `keep = 0` a pass changes nothing): an active pass adds
`max(0, before_tokens − estimate_tokens(summary))` (Nat subtraction) to the
saved-token counter — `before_tokens` being the `token_estimate` sum over
the eligible batch as currently stored — and increments the pass counter by
exactly one, with no assumption on whether eligible turns were already
summarized; `compact()` with turn count ≤ keep changes nothing. -/
theorem C9_compaction_bookkeeping (st : ContextManager) :
    (st.config.keep_recent_messages = 0 → st.compact = st) ∧
    (st.turns.length ≤ st.config.keep_recent_messages → st.compact = st) ∧
    (1 ≤ st.config.keep_recent_messages →
      st.config.keep_recent_messages < st.turns.length →
      st.compact.saved_tokens = st.saved_tokens +
        (((eligibleBatch st).map (fun t => t.token_estimate)).sum -
          estimate_tokens (create_summary (eligibleBatch st))) ∧
      st.compact.compression_count = st.compression_count + 1) := by
  refine ⟨fun h0 => compressRun_of_keep_zero st h0,
    fun hle => compressRun_of_le st hle, fun hk hlen => ?_⟩
  rw [ContextManager.compact, compressRun_active st hk hlen]
  exact ⟨rfl, rfl⟩

/-- Witness for `C9_compaction_bookkeeping` on the concrete two-turn
manager `stKeep1`. -/
theorem C9_witness :
    stKeep1.compact.saved_tokens = stKeep1.saved_tokens +
      (((eligibleBatch stKeep1).map (fun t => t.token_estimate)).sum -
        estimate_tokens (create_summary (eligibleBatch stKeep1))) ∧
    stKeep1.compact.compression_count = stKeep1.compression_count + 1 :=
  (C9_compaction_bookkeeping stKeep1).2.2 (by decide) (by decide)

/-- C4 counterexample: with `keep_recent_messages = 0` and one stored turn,
a forced pass leaves the turn unsummarized, although the claim (which
covers `keep_recent_messages = 0`) requires every turn except the most
recent 0 — that is, every turn — to end the pass summarized. -/
theorem C4_counterexample :
    0 < stKeep0.turns.length ∧ stKeep0.config.keep_recent_messages = 0 ∧
    (stKeep0.compact.turns.getD 0 default).summarized = false := by
  refine ⟨by decide, rfl, ?_⟩
  rw [show stKeep0.compact = stKeep0 from compressRun_of_keep_zero stKeep0 rfl]
  decide

/-- C4 (amended to `keep_recent_messages ≥ 1`; for `keep = 0` a pass
changes nothing, as the counterexample shows): an active pass keeps the
turn count, marks every turn except the most recent `keep` as summarized,
attaches this pass's summary string to each turn that was not already
summarized, leaves already-summarized turns entirely unchanged (keeping
their earlier summary string), and leaves the most recent `keep` turns
unchanged. -/
theorem C4_compaction_marks (st : ContextManager)
    (hk : 1 ≤ st.config.keep_recent_messages)
    (hlen : st.config.keep_recent_messages < st.turns.length) :
    st.compact.turns.length = st.turns.length ∧
    ∀ i t t', st.turns[i]? = some t → st.compact.turns[i]? = some t' →
      ((i < st.turns.length - st.config.keep_recent_messages →
        t'.summarized = true ∧
        (t.summarized = false → t'.summary = some (create_summary (eligibleBatch st))) ∧
        (t.summarized = true → t' = t)) ∧
      (st.turns.length - st.config.keep_recent_messages ≤ i → t' = t)) := by
  have hL := compressRun_turns_length st
  constructor
  · exact hL
  · intro i t t' ht ht'
    rw [ContextManager.compact, compressRun_active st hk hlen] at ht'
    simp only at ht'
    have hmE := eligibleBatch_length st hlen
    constructor
    · intro hi
      have hlt : i < ((eligibleBatch st).map
          (markTurn (create_summary (eligibleBatch st)))).length := by
        rw [List.length_map, hmE]; exact hi
      rw [List.getElem?_append, if_pos hlt, List.getElem?_map] at ht'
      have htake : (eligibleBatch st)[i]? = some t := by
        rw [eligibleBatch, List.getElem?_take_of_lt hi]
        exact ht
      rw [htake] at ht'
      have ht'' : markTurn (create_summary (eligibleBatch st)) t = t' := by
        injection ht'
      subst ht''
      rw [markTurn]
      by_cases hs : t.summarized
      · rw [if_pos hs]
        exact ⟨hs, fun hf => absurd hs (by simp [hf]), fun _ => rfl⟩
      · rw [if_neg hs]
        exact ⟨rfl, fun _ => rfl, fun htr => absurd htr hs⟩
    · intro hi
      have hge : ((eligibleBatch st).map
          (markTurn (create_summary (eligibleBatch st)))).length ≤ i := by
        rw [List.length_map, hmE]; exact hi
      rw [List.getElem?_append, if_neg (not_lt.mpr hge), List.length_map, hmE,
        List.getElem?_drop] at ht'
      have harith : st.turns.length - st.config.keep_recent_messages +
          (i - (st.turns.length - st.config.keep_recent_messages)) = i := by omega
      rw [harith, ht] at ht'
      exact (Option.some_inj.mp ht').symm

/-- Witness for `C4_compaction_marks` on the concrete two-turn manager
`stKeep1`. -/
theorem C4_witness : stKeep1.compact.turns.length = stKeep1.turns.length :=
  (C4_compaction_marks stKeep1 (by decide) (by decide)).1

/-! ### Claim C6 -/

/-- Reading of `get_messages` per the specification text: if at least one stored
turn is marked summarized, exactly one leading pair — a user message
holding a freshly computed `create_summary` over all currently summarized
turns, then the fixed acknowledgment — followed by the user/assistant
pairs of every non-summarized turn in stored order; otherwise only the
pairs. -/
def get_messages_spec (st : ContextManager) : List Message :=
  let pairs := ((st.turns.filter (fun t => !t.summarized)).map
    (fun t => [t.user, t.assistant])).flatten
  if st.turns.any (fun t => t.summarized) then
    { role := "user",
        content := .str (create_summary (st.turns.filter (fun t => t.summarized))) } ::
      summaryAckMessage :: pairs
  else pairs

theorem foldr_pairs_eq_flatten (ts : List ConversationTurn) :
    ts.foldr (fun t acc => t.user :: t.assistant :: acc) [] =
      (ts.map (fun t => [t.user, t.assistant])).flatten := by
  induction ts with
  | nil => rfl
  | cons h t ih => simp [ih]

theorem filter_isEmpty_eq_not_any (ts : List ConversationTurn) :
    (ts.filter (fun t => t.summarized)).isEmpty = !(ts.any (fun t => t.summarized)) := by
  induction ts with
  | nil => rfl
  | cons h t ih =>
    by_cases hs : h.summarized
    · simp [List.filter_cons, List.any_cons, hs]
    · simp only [List.filter_cons, List.any_cons]
      simp [hs, ih]

/-- C6: `get_messages()` returns exactly the summary pair (when any turn is
summarized) followed by the non-summarized turns' pairs in stored order,
and just the pairs otherwise. -/
theorem C6_get_messages (st : ContextManager) :
    st.get_messages = get_messages_spec st := by
  rw [ContextManager.get_messages, get_messages_spec]
  simp only [foldr_pairs_eq_flatten]
  by_cases h : st.turns.any (fun t => t.summarized)
  · rw [if_pos h]
    rw [show (st.turns.filter (fun t => t.summarized)).isEmpty = false by
      rw [filter_isEmpty_eq_not_any, h]; rfl]
    simp
  · rw [if_neg h]
    rw [show (st.turns.filter (fun t => t.summarized)).isEmpty = true by
      rw [filter_isEmpty_eq_not_any, Bool.eq_false_iff.mpr h]; rfl]
    simp

/-! ### Decomposition of `add_turn` -/

/-- The `ConversationTurn` record appended by `add_turn`. -/
def addTurnRecord (cfg : ContextConfig) (u a : Message) (us : Option TokenUsage)
    (now : Nat) : ConversationTurn :=
  let pu := if cfg.enable_incremental_compression then compress_message u cfg else u
  let pa := if cfg.enable_incremental_compression then compress_message a cfg else a
  { user := pu, assistant := pa, timestamp := now,
    token_estimate := estimate_message_tokens pu + estimate_message_tokens pa,
    original_tokens := estimate_message_tokens u + estimate_message_tokens a,
    summarized := false, summary := none,
    compressed := cfg.enable_incremental_compression &&
      decide (estimate_message_tokens pu + estimate_message_tokens pa <
        estimate_message_tokens u + estimate_message_tokens a),
    api_usage := us }

/-- The saved-token credit taken by `add_turn`. -/
def addTurnSaved (cfg : ContextConfig) (u a : Message) : Nat :=
  let pu := if cfg.enable_incremental_compression then compress_message u cfg else u
  let pa := if cfg.enable_incremental_compression then compress_message a cfg else a
  if cfg.enable_incremental_compression &&
      decide (estimate_message_tokens pu + estimate_message_tokens pa <
        estimate_message_tokens u + estimate_message_tokens a) then
    (estimate_message_tokens u + estimate_message_tokens a) -
      (estimate_message_tokens pu + estimate_message_tokens pa)
  else 0

theorem add_turn_eq (st : ContextManager) (u a : Message) (us : Option TokenUsage)
    (now : Nat) :
    st.add_turn u a us now = ContextManager.maybe_compress
      { st with
        saved_tokens := st.saved_tokens + addTurnSaved st.config u a,
        turns := st.turns ++ [addTurnRecord st.config u a us now] } := rfl

theorem addTurnRecord_compressed_lt (cfg : ContextConfig) (u a : Message)
    (us : Option TokenUsage) (now : Nat)
    (h : (addTurnRecord cfg u a us now).compressed = true) :
    (addTurnRecord cfg u a us now).token_estimate <
      (addTurnRecord cfg u a us now).original_tokens := by
  rw [addTurnRecord] at h ⊢
  simp only [Bool.and_eq_true, decide_eq_true_eq] at h
  exact h.2

/-! ### The reachability invariant -/

theorem pyJoin_cons_cons (sep s s' : String) (rest : List String) :
    pyJoin sep (s :: s' :: rest) = s ++ sep ++ pyJoin sep (s' :: rest) := rfl

theorem create_summary_ne_empty (l : List ConversationTurn) (h : l ≠ []) :
    create_summary l ≠ "" := by
  match l with
  | t :: ts =>
    intro heq
    have h1 : create_summary (t :: ts) =
        ("User: " ++ message_to_text t.user) ++ "\n" ++
          pyJoin "\n" (("Assistant: " ++ message_to_text t.assistant) ::
            ts.foldr (fun turn acc =>
              ("User: " ++ message_to_text turn.user) ::
                ("Assistant: " ++ message_to_text turn.assistant) :: acc) []) := rfl
    rw [h1] at heq
    have hlen := congrArg String.length heq
    simp only [String.length_append] at hlen
    have h6 : ("User: " : String).length = 6 := rfl
    have hn : ("\n" : String).length = 1 := rfl
    have h0 : ("" : String).length = 0 := rfl
    rw [h6, hn, h0] at hlen
    omega

/-- Tail protection: the `keep_recent_messages` most recently added turns
are never summarized. -/
def TailFree (st : ContextManager) : Prop :=
  ∀ t ∈ st.turns.drop (st.turns.length - st.config.keep_recent_messages),
    t.summarized = false

/-- Every recorded summary string is non-empty (so Python truthiness of
`turn.summary` coincides with "a summary is recorded"). -/
def SummariesNonEmpty (st : ContextManager) : Prop :=
  ∀ t ∈ st.turns, t.summary ≠ some ""

/-- A set `compressed` flag certifies a strict shrink of the estimate. -/
def CompressedShrank (st : ContextManager) : Prop :=
  ∀ t ∈ st.turns, t.compressed = true → t.token_estimate < t.original_tokens

def Inv (st : ContextManager) : Prop :=
  TailFree st ∧ SummariesNonEmpty st ∧ CompressedShrank st

theorem inv_compressRun (st : ContextManager) (h : Inv st) : Inv st.compressRun := by
  by_cases h0 : st.config.keep_recent_messages = 0
  · rw [compressRun_of_keep_zero st h0]; exact h
  · by_cases hle : st.turns.length ≤ st.config.keep_recent_messages
    · rw [compressRun_of_le st hle]; exact h
    · have hk : 1 ≤ st.config.keep_recent_messages := by omega
      have hlen : st.config.keep_recent_messages < st.turns.length := by omega
      obtain ⟨hT, hS, hC⟩ := h
      have hmE := eligibleBatch_length st hlen
      have hEne : eligibleBatch st ≠ [] := by
        intro hnil
        rw [hnil] at hmE
        simp at hmE
        omega
      rw [compressRun_active st hk hlen]
      have hAlen : ((eligibleBatch st).map
          (markTurn (create_summary (eligibleBatch st)))).length =
          st.turns.length - st.config.keep_recent_messages := by
        rw [List.length_map, hmE]
      have hLen' : ((eligibleBatch st).map
            (markTurn (create_summary (eligibleBatch st))) ++
          st.turns.drop (st.turns.length - st.config.keep_recent_messages)).length =
          st.turns.length := by
        rw [List.length_append, hAlen, List.length_drop]
        omega
      have hmemCases : ∀ t, t ∈ (eligibleBatch st).map
            (markTurn (create_summary (eligibleBatch st))) →
          ∃ t0, t0 ∈ st.turns ∧ t = markTurn (create_summary (eligibleBatch st)) t0 := by
        intro t ht
        obtain ⟨t0, ht0, heq⟩ := List.mem_map.mp ht
        exact ⟨t0, List.take_subset _ _ ht0, heq.symm⟩
      refine ⟨?_, ?_, ?_⟩
      · intro t ht
        simp only [hLen'] at ht
        rw [List.drop_append_eq_append_drop, hAlen,
          List.drop_of_length_le (by rw [hAlen]), List.nil_append,
          Nat.sub_self, List.drop_zero] at ht
        exact hT t ht
      · intro t ht
        rcases List.mem_append.mp ht with hl | hr
        · obtain ⟨t0, ht0, heq⟩ := hmemCases t hl
          subst heq
          rw [markTurn]
          by_cases hs : t0.summarized
          · rw [if_pos hs]; exact hS t0 ht0
          · rw [if_neg hs]
            intro hcontra
            have : create_summary (eligibleBatch st) = "" := by
              injection hcontra
            exact create_summary_ne_empty _ hEne this
        · exact hS t (List.drop_subset _ _ hr)
      · intro t ht
        rcases List.mem_append.mp ht with hl | hr
        · obtain ⟨t0, ht0, heq⟩ := hmemCases t hl
          subst heq
          rw [markTurn]
          by_cases hs : t0.summarized
          · rw [if_pos hs]; exact hC t0 ht0
          · rw [if_neg hs]; exact hC t0 ht0
        · exact hC t (List.drop_subset _ _ hr)

theorem inv_maybe_compress (st : ContextManager) (h : Inv st) :
    Inv st.maybe_compress := by
  rcases maybe_compress_cases st with heq | heq <;> rw [heq]
  · exact h
  · exact inv_compressRun st h

theorem inv_add_turn (st : ContextManager) (u a : Message) (us : Option TokenUsage)
    (now : Nat) (h : Inv st) : Inv (st.add_turn u a us now) := by
  rw [add_turn_eq]
  apply inv_maybe_compress
  obtain ⟨hT, hS, hC⟩ := h
  refine ⟨?_, ?_, ?_⟩
  · intro t ht
    simp only [List.length_append, List.length_cons, List.length_nil] at ht
    by_cases h0 : st.config.keep_recent_messages = 0
    · rw [h0, Nat.sub_zero] at ht
      rw [show st.turns.length + (0 + 1) = (st.turns ++
        [addTurnRecord st.config u a us now]).length by simp] at ht
      rw [List.drop_length] at ht
      exact absurd ht (List.not_mem_nil t)
    · rw [List.drop_append_eq_append_drop] at ht
      rcases List.mem_append.mp ht with hl | hr
      · have hsub : st.turns.drop (st.turns.length + (0 + 1) -
            st.config.keep_recent_messages) ⊆
            st.turns.drop (st.turns.length - st.config.keep_recent_messages) := by
          intro x hx
          rw [show st.turns.length + (0 + 1) - st.config.keep_recent_messages =
            (st.turns.length - st.config.keep_recent_messages) +
              (st.turns.length + (0 + 1) - st.config.keep_recent_messages -
                (st.turns.length - st.config.keep_recent_messages)) by omega,
            ← List.drop_drop] at hx
          exact List.drop_subset _ _ hx
        exact hT t (hsub hl)
      · rcases List.mem_singleton.mp (List.mem_of_mem_drop hr) with rfl
        rfl
  · intro t ht
    rcases List.mem_append.mp ht with hl | hr
    · exact hS t hl
    · rcases List.mem_singleton.mp hr with rfl
      intro hcontra
      exact Option.noConfusion hcontra
  · intro t ht
    rcases List.mem_append.mp ht with hl | hr
    · exact hC t hl
    · rcases List.mem_singleton.mp hr with rfl
      exact addTurnRecord_compressed_lt st.config u a us now

theorem reachable_inv (st : ContextManager) (h : Reachable st) : Inv st := by
  induction h with
  | init cfg =>
    refine ⟨?_, ?_, ?_⟩ <;> intro t ht <;>
      simp [ContextManager.init] at ht
  | set_prompt p _ ih => exact ih
  | add u a us now _ ih => exact inv_add_turn _ u a us now ih
  | compact_step _ ih => exact inv_compressRun _ ih
  | reset_step _ ih =>
    refine ⟨?_, ?_, ?_⟩ <;> intro t ht <;>
      simp [ContextManager.reset] at ht

/-! ### Claim C3 -/

/-- C3: tail guard — in every state reachable through the public interface
(any finite sequence of `add_turn`/`compact` calls under any
configuration), none of the `keep_recent_messages` most recently added
turns is marked summarized. -/
theorem C3_tail_protection (st : ContextManager) (h : Reachable st) :
    ∀ t ∈ st.turns.drop (st.turns.length - st.config.keep_recent_messages),
      t.summarized = false :=
  (reachable_inv st h).1

/-- Witness for `C3_tail_protection` on the concrete two-turn manager
`stKeep1` (its most recent turn, position 1, is unsummarized). -/
theorem C3_witness : (stKeep1.turns.getD 1 default).summarized = false :=
  C3_tail_protection stKeep1
    (Reachable.add _ _ _ _ (Reachable.add _ _ _ _ (Reachable.init _)))
    _ (by decide)

/-! ### Claim C5 -/

/-- The per-turn contribution to `get_used_tokens` as the specification
states it: the estimate of the turn's own stored summary if the turn is
summarized and has a summary recorded; else the sum of the five actual
usage counters if usage was supplied; else the stored `token_estimate`. -/
def turnUsedTokens_spec (turn : ConversationTurn) : Nat :=
  if turn.summarized = true ∧ turn.summary.isSome then
    estimate_tokens (turn.summary.getD "")
  else
    match turn.api_usage with
    | some u =>
        u.input_tokens + u.cache_creation_tokens.getD 0 + u.cache_read_tokens.getD 0 +
          u.output_tokens + u.thinking_tokens.getD 0
    | none => turn.token_estimate

/-- Reading of `get_used_tokens` per the specification text. -/
def get_used_tokens_spec (st : ContextManager) : Nat :=
  estimate_tokens st.system_prompt + (st.turns.map turnUsedTokens_spec).sum

theorem turnUsedTokens_eq_spec (t : ConversationTurn) (h : t.summary ≠ some "") :
    turnUsedTokens t = turnUsedTokens_spec t := by
  rw [turnUsedTokens, turnUsedTokens_spec]
  cases hs : t.summary with
  | none => simp [pyTruthyOptStr]
  | some s =>
    have hs' : s ≠ "" := fun he => h (by rw [hs, he])
    cases hsm : t.summarized
    · simp [pyTruthyOptStr]
    · simp [pyTruthyOptStr, hs']

/-- C5: in every reachable state, `get_used_tokens()` is the system-prompt
estimate plus, per turn: the estimate of the turn's own stored summary
when summarized with a recorded summary; else the supplied actual usage
(input + cache-creation + cache-read + output + thinking); else the stored
`token_estimate`. -/
theorem C5_get_used_tokens (st : ContextManager) (h : Reachable st) :
    st.get_used_tokens = get_used_tokens_spec st := by
  have hS := (reachable_inv st h).2.1
  rw [ContextManager.get_used_tokens, get_used_tokens_spec]
  congr 1
  exact congrArg List.sum
    (List.map_congr_left (fun t ht => turnUsedTokens_eq_spec t (hS t ht)))

/-- One turn with actual usage `{input: 50, output: 20}` on a default
config; no compaction is triggered. -/
def stUsage : ContextManager :=
  (ContextManager.init {}).add_turn
    { role := "user", content := .str "q" }
    { role := "assistant", content := .str "r" }
    (some { input_tokens := 50, output_tokens := 20 }) 0

/-- Witness for `C5_get_used_tokens` on `stUsage`; in particular
`get_used_tokens()` is exactly 70 there (the system prompt is empty, so
its estimate contributes 0). -/
theorem C5_witness :
    stUsage.get_used_tokens = get_used_tokens_spec stUsage ∧
    stUsage.get_used_tokens = 70 :=
  ⟨C5_get_used_tokens stUsage (Reachable.add _ _ _ _ (Reachable.init _)),
    by decide⟩

/-! ### Claim C1 -/

/-- A config whose tool-output limit is 10 characters. -/
def cfgSmallTool : ContextConfig := { tool_output_max_chars := 10 }

/-- A user message holding an 11-character tool result: one character over
the limit, so the compression marker inflates the stored text. -/
def msgInflate : Message :=
  { role := "user", content := .blocks [.tool_result_str (String.mk (List.replicate 11 'a'))] }

def msgEmptyAssistant : Message := { role := "assistant", content := .str "" }

def stInflated : ContextManager :=
  (ContextManager.init cfgSmallTool).add_turn msgInflate msgEmptyAssistant none 0

/-- C1 counterexample: with incremental compression on and an 11-character
tool result against a 10-character limit, `compress_message` replaces the
content by 10 kept characters plus a 27-character marker, and `add_turn`
stores `token_estimate = 33 > 24 = original_tokens`: compression can
increase the estimate. -/
theorem C1_counterexample :
    stInflated.config.enable_incremental_compression = true ∧
    (stInflated.turns.getD 0 default).token_estimate = 33 ∧
    (stInflated.turns.getD 0 default).original_tokens = 24 := by
  decide

/-- C1 (amended, as the counterexample forces): `token_estimate ≤
original_tokens` does not hold unconditionally — storing the
`compress_message` output can increase the estimate — but in every
reachable state, every turn whose `compressed` flag is set satisfies the
strict inequality `token_estimate < original_tokens`, and this is
preserved by all later operations (compact, get_messages, get_stats
mutate no estimate). -/
theorem C1_compressed_shrinks (st : ContextManager) (h : Reachable st) :
    ∀ t ∈ st.turns, t.compressed = true →
      t.token_estimate < t.original_tokens :=
  (reachable_inv st h).2.2

/-- A 100-character tool result against the 10-character limit: here
compression genuinely shrinks the estimate and the flag is set. -/
def msgShrink : Message :=
  { role := "user", content := .blocks [.tool_result_str (String.mk (List.replicate 100 'a'))] }

def stShrunk : ContextManager :=
  (ContextManager.init cfgSmallTool).add_turn msgShrink msgEmptyAssistant none 0

/-- Witness for `C1_compressed_shrinks` on `stShrunk`. -/
theorem C1_witness :
    (stShrunk.turns.getD 0 default).compressed = true ∧
    (stShrunk.turns.getD 0 default).token_estimate <
      (stShrunk.turns.getD 0 default).original_tokens :=
  ⟨by decide,
    C1_compressed_shrinks stShrunk (Reachable.add _ _ _ _ (Reachable.init _))
      _ (by decide) (by decide)⟩

/-! ### Claim C10 -/

theorem compressRun_getLast? (st : ContextManager) :
    st.compressRun.turns.getLast? = st.turns.getLast? := by
  by_cases h0 : st.config.keep_recent_messages = 0
  · rw [compressRun_of_keep_zero st h0]
  · by_cases hle : st.turns.length ≤ st.config.keep_recent_messages
    · rw [compressRun_of_le st hle]
    · rw [compressRun_active st (by omega) (by omega)]
      simp only
      have hB : st.turns.drop (st.turns.length - st.config.keep_recent_messages) ≠ [] := by
        intro hnil
        have := congrArg List.length hnil
        rw [List.length_drop] at this
        simp at this
        omega
      rw [List.getLast?_append_of_ne_nil _ hB]
      conv_rhs => rw [← List.take_append_drop
        (st.turns.length - st.config.keep_recent_messages) st.turns]
      rw [List.getLast?_append_of_ne_nil _ hB]

/-- C10 (implicit behavior of `add_turn` under incremental compression):
the stored turn always holds the `compress_message` outputs, its
`token_estimate` is computed from those outputs (even when not smaller
than the original), and its `compressed` flag is set exactly when the
compressed estimate is strictly smaller; the saved-token credit taken at
storage time is `original − compressed` exactly when the flag is set and
`0` otherwise (second conjunct, stated before the possible
threshold-triggered pass); consequently — last conjuncts — a stored turn
can hold content differing from the caller's input while `compressed` is
`False` (the `stInflated` turn). -/
theorem C10_add_turn_stores_processed :
    (∀ (st : ContextManager) (u a : Message) (us : Option TokenUsage) (now : Nat),
      st.config.enable_incremental_compression = true →
      (st.add_turn u a us now).turns.getLast? = some {
        user := compress_message u st.config,
        assistant := compress_message a st.config,
        timestamp := now,
        token_estimate := estimate_message_tokens (compress_message u st.config) +
          estimate_message_tokens (compress_message a st.config),
        original_tokens := estimate_message_tokens u + estimate_message_tokens a,
        summarized := false, summary := none,
        compressed := decide (estimate_message_tokens (compress_message u st.config) +
          estimate_message_tokens (compress_message a st.config) <
            estimate_message_tokens u + estimate_message_tokens a),
        api_usage := us }) ∧
    (∀ (st : ContextManager) (u a : Message) (us : Option TokenUsage) (now : Nat),
      st.add_turn u a us now = ContextManager.maybe_compress
        { st with
          saved_tokens := st.saved_tokens +
            (if (addTurnRecord st.config u a us now).compressed = true then
              (addTurnRecord st.config u a us now).original_tokens -
                (addTurnRecord st.config u a us now).token_estimate
            else 0),
          turns := st.turns ++ [addTurnRecord st.config u a us now] }) ∧
    (stInflated.turns.getD 0 default).user ≠ msgInflate ∧
    (stInflated.turns.getD 0 default).compressed = false := by
  refine ⟨?_, fun st u a us now => rfl, by decide, by decide⟩
  intro st u a us now he
  have hrec : addTurnRecord st.config u a us now = {
      user := compress_message u st.config,
      assistant := compress_message a st.config,
      timestamp := now,
      token_estimate := estimate_message_tokens (compress_message u st.config) +
        estimate_message_tokens (compress_message a st.config),
      original_tokens := estimate_message_tokens u + estimate_message_tokens a,
      summarized := false, summary := none,
      compressed := decide (estimate_message_tokens (compress_message u st.config) +
        estimate_message_tokens (compress_message a st.config) <
          estimate_message_tokens u + estimate_message_tokens a),
      api_usage := us } := by
    rw [addTurnRecord]
    simp only [he, if_true, Bool.true_and]
  rw [add_turn_eq]
  have hlast : (st.turns ++ [addTurnRecord st.config u a us now]).getLast? =
      some (addTurnRecord st.config u a us now) := by
    rw [List.getLast?_append_of_ne_nil _ (by simp)]
    rfl
  rcases maybe_compress_cases { st with
      saved_tokens := st.saved_tokens + addTurnSaved st.config u a,
      turns := st.turns ++ [addTurnRecord st.config u a us now] } with heq | heq <;>
    rw [heq]
  · rw [show ({ st with
      saved_tokens := st.saved_tokens + addTurnSaved st.config u a,
      turns := st.turns ++ [addTurnRecord st.config u a us now] } :
        ContextManager).turns = st.turns ++ [addTurnRecord st.config u a us now]
      from rfl, hlast, hrec]
  · rw [compressRun_getLast?]
    rw [show ({ st with
      saved_tokens := st.saved_tokens + addTurnSaved st.config u a,
      turns := st.turns ++ [addTurnRecord st.config u a us now] } :
        ContextManager).turns = st.turns ++ [addTurnRecord st.config u a us now]
      from rfl, hlast, hrec]

/-- Witness for the universally quantified part of
`C10_add_turn_stores_processed`, at the concrete `stShrunk` add. -/
theorem C10_witness :
    ((ContextManager.init cfgSmallTool).add_turn msgShrink msgEmptyAssistant
        none 0).turns.getLast? = some {
      user := compress_message msgShrink cfgSmallTool,
      assistant := compress_message msgEmptyAssistant cfgSmallTool,
      timestamp := 0,
      token_estimate := estimate_message_tokens (compress_message msgShrink cfgSmallTool) +
        estimate_message_tokens (compress_message msgEmptyAssistant cfgSmallTool),
      original_tokens := estimate_message_tokens msgShrink +
        estimate_message_tokens msgEmptyAssistant,
      summarized := false, summary := none,
      compressed := decide (estimate_message_tokens (compress_message msgShrink cfgSmallTool) +
        estimate_message_tokens (compress_message msgEmptyAssistant cfgSmallTool) <
          estimate_message_tokens msgShrink + estimate_message_tokens msgEmptyAssistant),
      api_usage := none } :=
  C10_add_turn_stores_processed.1 (ContextManager.init cfgSmallTool)
    msgShrink msgEmptyAssistant none 0 rfl

/-! ### Claim C2 (Scenario A) -/

/-- A text of 105 letters: estimated at exactly 30 tokens, so a user/assistant pair
of such texts is estimated at `(30+10) + (30+10) = 80` tokens. -/
def aText : String := String.mk (List.replicate 105 'a')

def cfgScenarioA : ContextConfig :=
  { max_tokens := 1000, reserve_tokens := 0, summarize_threshold := threshold07,
    keep_recent_messages := 10 }

def userA : Message := { role := "user", content := .str aText }

def assistantA : Message := { role := "assistant", content := .str aText }

def addA (st : ContextManager) (i : Nat) : ContextManager :=
  st.add_turn userA assistantA none i

/-- Scenario A: 15 identical ~80-token turns added to a manager configured
with `max_tokens=1000, reserve_tokens=0, summarize_threshold=0.7,
keep_recent_messages=10`. -/
def stScenarioA : ContextManager :=
  (List.range 15).foldl addA (ContextManager.init cfgScenarioA)

/-- C2 counterexample: in the claim's own scenario (15 turns, each stored
with `token_estimate = 80`), `get_stats().compression_count` is not 1 —
the 10 protected turns alone hold 800 ≥ 700 tokens, so a pass fires on
every add from the 11th on. -/
theorem C2_counterexample :
    stScenarioA.turns.length = 15 ∧
    stScenarioA.turns.all (fun t => decide (t.token_estimate = 80)) = true ∧
    stScenarioA.get_stats.compression_count ≠ 1 := by
  decide

/-- C2 (amended: `compression_count` is 5, not 1; the rest of the claim
holds): exactly the 5 oldest turns end up summarized, `get_messages()`
returns 22 messages — one summary user/assistant pair (user role first,
then the fixed acknowledgment) followed by the 10 unsummarized turns'
pairs — and `get_stats().compression_count = 5`. -/
theorem C2_scenarioA :
    stScenarioA.turns.map (fun t => t.summarized) =
      [true, true, true, true, true, false, false, false, false, false,
        false, false, false, false, false] ∧
    stScenarioA.get_messages.length = 22 ∧
    (stScenarioA.get_messages.getD 0 default).role = "user" ∧
    stScenarioA.get_messages.getD 1 default = summaryAckMessage ∧
    stScenarioA.get_messages.drop 2 =
      (stScenarioA.turns.drop 5).foldr (fun t acc => t.user :: t.assistant :: acc) [] ∧
    stScenarioA.get_stats.compression_count = 5 := by
  decide

end ClaudeContext
